import Mathlib

/-
Verification of the ear-training application's pitch-detection and
training-orchestration core.  The definitions below are shallow embeddings of
the TypeScript sources:

  * `Note`, `GUITAR_NOTES`, `findClosestNote`, `getRandomNote`,
    `getRandomNoteWithinInterval` embed src/constants/Notes.ts;
  * `pushDetection`, `calculateVariance`, `webTick`, `nativeTick`,
    `resumeTick`, `pausePitchDetection`, `resumePitchDetection`,
    `playNote`, `playSequence` embed src/utils/AudioUtils.ts;
  * `generateNewSequence`, `onDetection`, `handleSequenceCompleted`,
    `handleTrainingStepComplete`, `playCurrentSequenceWithNotes`,
    `playSuccessSound` embed the training screen component.

Numbers are modelled as rationals (the sources use JS numbers on decimal
literals); `Math.random()` draws are modelled as explicit rational parameters
in [0,1); the recurring timer callbacks are modelled as pure per-tick
functions from the mutable state they read to the state they write plus the
list of `(note, volume)` emissions they perform on that tick.
-/

structure Note where
  name : String
  frequency : ℚ
  audioFile : String
deriving DecidableEq

instance : Inhabited Note := ⟨⟨"", 0, ""⟩⟩

/- The fixed note catalog of src/constants/Notes.ts (GUITAR_NOTES). -/
def GUITAR_NOTES : List Note := [
  ⟨"E2", 82.41, "e2.mp3"⟩,
  ⟨"F2", 87.31, "f2.mp3"⟩,
  ⟨"F#2/Gb2", 92.50, "f-2.mp3"⟩,
  ⟨"G2", 98.00, "g2.mp3"⟩,
  ⟨"G#2/Ab2", 103.83, "g-2.mp3"⟩,
  ⟨"A2", 110.00, "a2.mp3"⟩,
  ⟨"A#2/Bb2", 116.54, "a-2.mp3"⟩,
  ⟨"B2", 123.47, "b2.mp3"⟩,
  ⟨"C3", 130.81, "c3.mp3"⟩,
  ⟨"C#3/Db3", 138.59, "c-3.mp3"⟩,
  ⟨"D3", 146.83, "d3.mp3"⟩,
  ⟨"D#3/Eb3", 155.56, "d-3.mp3"⟩,
  ⟨"E3", 164.81, "e3.mp3"⟩,
  ⟨"F3", 174.61, "f3.mp3"⟩,
  ⟨"F#3/Gb3", 185.00, "f-3.mp3"⟩,
  ⟨"G3", 196.00, "g3.mp3"⟩,
  ⟨"G#3/Ab3", 207.65, "g-3.mp3"⟩,
  ⟨"A3", 220.00, "a3.mp3"⟩,
  ⟨"A#3/Bb3", 233.08, "a-3.mp3"⟩,
  ⟨"B3", 246.94, "b3.mp3"⟩,
  ⟨"C4", 261.63, "c4.mp3"⟩,
  ⟨"C#4/Db4", 277.18, "c-4.mp3"⟩,
  ⟨"D4", 293.66, "d4.mp3"⟩,
  ⟨"D#4/Eb4", 311.13, "d-4.mp3"⟩,
  ⟨"E4", 329.63, "e4.mp3"⟩,
  ⟨"F4", 349.23, "f4.mp3"⟩,
  ⟨"F#4/Gb4", 369.99, "f-4.mp3"⟩,
  ⟨"G4", 392.00, "g4.mp3"⟩,
  ⟨"G#4/Ab4", 415.30, "g-4.mp3"⟩,
  ⟨"A4", 440.00, "a4.mp3"⟩,
  ⟨"A#4/Bb4", 466.16, "a-4.mp3"⟩,
  ⟨"B4", 493.88, "b4.mp3"⟩,
  ⟨"C5", 523.25, "c5.mp3"⟩,
  ⟨"C#5/Db5", 554.37, "c-5.mp3"⟩,
  ⟨"D5", 587.33, "d5.mp3"⟩,
  ⟨"D#5/Eb5", 622.25, "d-5.mp3"⟩,
  ⟨"E5", 659.26, "e5.mp3"⟩,
  ⟨"F5", 698.46, "f5.mp3"⟩,
  ⟨"F#5/Gb5", 739.99, "f-5.mp3"⟩,
  ⟨"G5", 783.99, "g5.mp3"⟩,
  ⟨"G#5/Ab5", 830.61, "g-5.mp3"⟩,
  ⟨"A5", 880.00, "a5.mp3"⟩,
  ⟨"A#5/Bb5", 932.33, "a-5.mp3"⟩,
  ⟨"B5", 987.77, "b5.mp3"⟩]

/- Math.abs on the rational model of JS numbers. -/
def ratAbs (q : ℚ) : ℚ := if q < 0 then -q else q

/- Absolute frequency difference used by the findClosestNote scan. -/
def noteDiff (f : ℚ) (n : Note) : ℚ := ratAbs (f - n.frequency)

/- The for-loop of findClosestNote: walk the remaining notes, replacing the
current best (note, minDifference) only on a strictly smaller difference. -/
def closestAux (f : ℚ) : List Note → Note × ℚ → Note × ℚ
  | [], acc => acc
  | n :: rest, acc =>
      closestAux f rest (if noteDiff f n < acc.2 then (n, noteDiff f n) else acc)

/- findClosestNote of src/constants/Notes.ts: scan for the minimal absolute
difference, then reject the match when that difference exceeds 5% of the
matched note's frequency.  (The empty-catalog branch is unreachable.) -/
def findClosestNote (frequency : ℚ) : Option Note :=
  if frequency ≤ 0 then none
  else
    match GUITAR_NOTES with
    | [] => none
    | n0 :: rest =>
        let best := closestAux frequency rest (n0, ratAbs (frequency - n0.frequency))
        if best.1.frequency * (5 / 100) < best.2 then none else some best.1

/- The first catalog entry, the seed of the findClosestNote scan. -/
def firstNoteE2 : Note := ⟨"E2", 82.41, "e2.mp3"⟩

theorem guitarNotes_head : GUITAR_NOTES = firstNoteE2 :: GUITAR_NOTES.tail := rfl

theorem findClosestNote_pos (f : ℚ) (hf : 0 < f) :
    findClosestNote f =
      (if (closestAux f GUITAR_NOTES.tail (firstNoteE2, noteDiff f firstNoteE2)).1.frequency
            * (5 / 100)
          < (closestAux f GUITAR_NOTES.tail (firstNoteE2, noteDiff f firstNoteE2)).2
       then none
       else some (closestAux f GUITAR_NOTES.tail (firstNoteE2, noteDiff f firstNoteE2)).1) := by
  unfold findClosestNote
  rw [if_neg (not_le.mpr hf)]
  rfl

/- Facts about the concrete catalog used throughout: frequencies strictly
increase along the table, names are pairwise distinct, and no gap between
adjacent notes exceeds 10% of the lower note's frequency (so half a gap is
within the 5% findClosestNote tolerance). -/
theorem guitarNotes_freq_chain :
    List.Chain' (fun a b : Note => a.frequency < b.frequency) GUITAR_NOTES := by
  norm_num [GUITAR_NOTES]

theorem guitarNotes_gap_chain :
    List.Chain' (fun a b : Note =>
      b.frequency - a.frequency ≤ a.frequency * (10 / 100)) GUITAR_NOTES := by
  norm_num [GUITAR_NOTES]

theorem guitarNotes_names_nodup : (GUITAR_NOTES.map Note.name).Nodup := by decide

theorem ratAbs_eq_abs (q : ℚ) : ratAbs q = |q| := by
  unfold ratAbs
  split
  · exact (abs_of_neg (by assumption)).symm
  · exact (abs_of_nonneg (le_of_not_lt (by assumption))).symm

/-
The scan of findClosestNote computes, from a seed candidate `(a, da)` with
`da = noteDiff f a`, a pair `(best, minDifference)` such that `minDifference`
is the least difference over the seed and the scanned list, and `best` is the
seed itself or else the FIRST list element realising a difference strictly
below every earlier difference (the loop replaces the current best only on a
strictly smaller difference).
-/
theorem closestAux_spec (f : ℚ) (l : List Note) :
    ∀ (a : Note) (da : ℚ), da = noteDiff f a →
      (closestAux f l (a, da)).2 = noteDiff f (closestAux f l (a, da)).1 ∧
      (closestAux f l (a, da)).2 ≤ da ∧
      (∀ m ∈ l, (closestAux f l (a, da)).2 ≤ noteDiff f m) ∧
      (closestAux f l (a, da) = (a, da) ∨
        ∃ l1 l2, l = l1 ++ (closestAux f l (a, da)).1 :: l2 ∧
          (∀ m ∈ l1, (closestAux f l (a, da)).2 < noteDiff f m) ∧
          (closestAux f l (a, da)).2 < da) := by
  induction l with
  | nil =>
      intro a da ha
      simp [closestAux, ha]
  | cons n rest ih =>
      intro a da ha
      by_cases h : noteDiff f n < da
      · have hstep : closestAux f (n :: rest) (a, da)
            = closestAux f rest (n, noteDiff f n) := by
          simp [closestAux, h]
        obtain ⟨k1, k2, k3, k4⟩ := ih n (noteDiff f n) rfl
        rw [hstep]
        refine ⟨k1, le_of_lt (lt_of_le_of_lt k2 h), ?_, ?_⟩
        · intro m hm
          rcases List.mem_cons.mp hm with rfl | hm'
          · exact k2
          · exact k3 m hm'
        · rcases k4 with heq | ⟨l1, l2, hsplit, hl1, hlt⟩
          · refine Or.inr ⟨[], rest, ?_, ?_, ?_⟩
            · rw [heq]; simp
            · intro m hm; simp at hm
            · rw [heq]; exact h
          · refine Or.inr ⟨n :: l1, l2, ?_, ?_, ?_⟩
            · simpa using congrArg (List.cons n) hsplit
            · intro m hm
              rcases List.mem_cons.mp hm with rfl | hm'
              · exact hlt
              · exact hl1 m hm'
            · exact lt_trans hlt h
      · have hstep : closestAux f (n :: rest) (a, da)
            = closestAux f rest (a, da) := by
          simp [closestAux, h]
        obtain ⟨k1, k2, k3, k4⟩ := ih a da ha
        rw [hstep]
        refine ⟨k1, k2, ?_, ?_⟩
        · intro m hm
          rcases List.mem_cons.mp hm with rfl | hm'
          · exact le_trans k2 (le_of_not_lt h)
          · exact k3 m hm'
        · rcases k4 with heq | ⟨l1, l2, hsplit, hl1, hlt⟩
          · exact Or.inl heq
          · refine Or.inr ⟨n :: l1, l2, ?_, ?_, ?_⟩
            · simpa using congrArg (List.cons n) hsplit
            · intro m hm
              rcases List.mem_cons.mp hm with rfl | hm'
              · exact lt_of_lt_of_le hlt (le_of_not_lt h)
              · exact hl1 m hm'
            · exact hlt

/-
For a positive query frequency, the scan of findClosestNote selects the
catalog entry at the least index attaining the minimal difference, and the
function then applies the 5% tolerance gate to exactly that entry.
-/
theorem findClosestNote_scan (f : ℚ) (hf : 0 < f) :
    ∃ k, k < GUITAR_NOTES.length ∧
      (∀ m ∈ GUITAR_NOTES, noteDiff f (GUITAR_NOTES.getD k default) ≤ noteDiff f m) ∧
      (∀ k', k' < k →
        noteDiff f (GUITAR_NOTES.getD k default)
          < noteDiff f (GUITAR_NOTES.getD k' default)) ∧
      findClosestNote f =
        (if (GUITAR_NOTES.getD k default).frequency * (5 / 100)
              < noteDiff f (GUITAR_NOTES.getD k default)
         then none
         else some (GUITAR_NOTES.getD k default)) := by
  have hres := findClosestNote_pos f hf
  obtain ⟨h1, h2, h3, h4⟩ :=
    closestAux_spec f GUITAR_NOTES.tail firstNoteE2 (noteDiff f firstNoteE2) rfl
  set r := closestAux f GUITAR_NOTES.tail (firstNoteE2, noteDiff f firstNoteE2) with hr
  rcases h4 with heq | ⟨l1, l2, hsplit, hl1, hlt⟩
  · refine ⟨0, by simp [GUITAR_NOTES], ?_, ?_, ?_⟩
    · intro m hm
      have hgd : GUITAR_NOTES.getD 0 default = firstNoteE2 := rfl
      rw [hgd]
      rcases List.mem_cons.mp (guitarNotes_head ▸ hm) with rfl | hm'
      · exact le_refl _
      · have := h3 m hm'
        rw [heq] at this
        simpa using this
    · intro k' hk'; omega
    · have hgd : GUITAR_NOTES.getD 0 default = firstNoteE2 := rfl
      rw [hgd, hres, heq]
  · have hgd : GUITAR_NOTES.getD (l1.length + 1) default = r.1 := by
      rw [guitarNotes_head, List.getD_cons_succ, hsplit,
        List.getD_append_right l1 (r.1 :: l2) default l1.length (le_refl _)]
      simp
    have hklen : l1.length + 1 < GUITAR_NOTES.length := by
      rw [guitarNotes_head, List.length_cons, hsplit, List.length_append, List.length_cons]
      omega
    refine ⟨l1.length + 1, hklen, ?_, ?_, ?_⟩
    · intro m hm
      rw [hgd, ← h1]
      rcases List.mem_cons.mp (guitarNotes_head ▸ hm) with rfl | hm'
      · exact le_of_lt hlt
      · exact h3 m hm'
    · intro k' hk'
      rw [hgd, ← h1]
      match k', hk' with
      | 0, _ =>
          have hgd0 : GUITAR_NOTES.getD 0 default = firstNoteE2 := rfl
          rw [hgd0]; exact hlt
      | (t + 1), hk' =>
          have ht : t < l1.length := by omega
          have hgdt : GUITAR_NOTES.getD (t + 1) default = l1.getD t default := by
            rw [guitarNotes_head, List.getD_cons_succ, hsplit,
              List.getD_append l1 (r.1 :: l2) default t ht]
          rw [hgdt]
          refine hl1 _ ?_
          rw [List.getD_eq_getElem l1 default ht]
          exact List.getElem_mem ht
    · rw [hgd, ← h1, hres]

theorem guitarNotes_freq_mono :
    ∀ k1 k2 : ℕ, k1 < k2 → k2 < GUITAR_NOTES.length →
      (GUITAR_NOTES.getD k1 default).frequency
        < (GUITAR_NOTES.getD k2 default).frequency := by
  haveI : IsTrans Note (fun a b : Note => a.frequency < b.frequency) :=
    ⟨fun _ _ _ h1 h2 => lt_trans h1 h2⟩
  have hp := List.chain'_iff_pairwise.mp guitarNotes_freq_chain
  intro k1 k2 h12 h2
  have h1 : k1 < GUITAR_NOTES.length := lt_trans h12 h2
  rw [List.getD_eq_getElem _ _ h1, List.getD_eq_getElem _ _ h2]
  exact List.pairwise_iff_getElem.mp hp k1 k2 h1 h2 h12

theorem guitarNotes_gap (k : ℕ) (hk : k + 1 < GUITAR_NOTES.length) :
    (GUITAR_NOTES.getD (k + 1) default).frequency
        - (GUITAR_NOTES.getD k default).frequency
      ≤ (GUITAR_NOTES.getD k default).frequency * (10 / 100) := by
  have hk0 : k < GUITAR_NOTES.length := by omega
  have hk1 : k < GUITAR_NOTES.length - 1 := by omega
  have := List.chain'_iff_get.mp guitarNotes_gap_chain k hk1
  rw [List.getD_eq_getElem _ _ hk0, List.getD_eq_getElem _ _ hk]
  simpa [List.get_eq_getElem] using this

/-- Claim C1: for every frequency f > 0, findClosestNote f returns the catalog
note minimizing the absolute difference to f, except that it returns none when
that minimal difference exceeds 0.05 times the matched note's frequency; for
every f ≤ 0 it returns none. -/
theorem claim_C1 (f : ℚ) :
    (f ≤ 0 → findClosestNote f = none) ∧
    (0 < f → ∃ n ∈ GUITAR_NOTES,
      (∀ m ∈ GUITAR_NOTES, noteDiff f n ≤ noteDiff f m) ∧
      findClosestNote f =
        (if n.frequency * (5 / 100) < noteDiff f n then none else some n)) := by
  constructor
  · intro hle
    unfold findClosestNote
    rw [if_pos hle]
  · intro hf
    obtain ⟨k, hk, hmin, _, hres⟩ := findClosestNote_scan f hf
    refine ⟨GUITAR_NOTES.getD k default, ?_, hmin, hres⟩
    rw [List.getD_eq_getElem _ _ hk]
    exact List.getElem_mem hk

/-- Witness for claim C1 at the concrete non-positive input f = -1: the
hypothesis f ≤ 0 holds and findClosestNote returns none. -/
theorem claim_C1_witness : (-1 : ℚ) ≤ 0 ∧ findClosestNote (-1) = none :=
  ⟨by norm_num, (claim_C1 (-1)).1 (by norm_num)⟩

/-- Claim C10: for every frequency f > 0 at which two (or more) catalog notes
are equidistant from f at the minimal difference, findClosestNote returns the
equidistant note with the smallest catalog index, because the scan only
replaces the current best on a strictly smaller difference. -/
theorem claim_C10 (f : ℚ) (hf : 0 < f) (i j : ℕ)
    (hj : j < GUITAR_NOTES.length) (hij : i < j)
    (heq : noteDiff f (GUITAR_NOTES.getD i default)
      = noteDiff f (GUITAR_NOTES.getD j default))
    (hmin : ∀ m ∈ GUITAR_NOTES,
      noteDiff f (GUITAR_NOTES.getD i default) ≤ noteDiff f m) :
    findClosestNote f = some (GUITAR_NOTES.getD i default) := by
  have hi : i < GUITAR_NOTES.length := lt_trans hij hj
  set ni := GUITAR_NOTES.getD i default with hni
  set nj := GUITAR_NOTES.getD j default with hnj
  set fi := ni.frequency
  set fj := nj.frequency
  have hfij : fi < fj := guitarNotes_freq_mono i j hij hj
  -- the tie forces f to be the midpoint of fi and fj
  have habs : |f - fi| = |f - fj| := by
    have := heq
    rwa [noteDiff, noteDiff, ratAbs_eq_abs, ratAbs_eq_abs] at this
  have hmid : f - fi = fj - f := by
    rcases abs_eq_abs.mp habs with h | h
    · exfalso; have : fi = fj := by linarith
      exact absurd this (ne_of_lt hfij)
    · linarith
  have hfi_lt : fi < f := by linarith
  have hf_lt : f < fj := by linarith
  have hdi : noteDiff f ni = f - fi := by
    rw [noteDiff, ratAbs_eq_abs, abs_of_pos (by linarith)]
  -- any note strictly between fi and fj would be strictly closer, so j = i+1
  have hj1 : j = i + 1 := by
    by_contra hne
    have hlt : i + 1 < j := by omega
    have hlen : i + 1 < GUITAR_NOTES.length := lt_trans hlt hj
    set nm := GUITAR_NOTES.getD (i + 1) default with hnm
    have h1 : fi < nm.frequency := guitarNotes_freq_mono i (i + 1) (by omega) hlen
    have h2 : nm.frequency < fj := guitarNotes_freq_mono (i + 1) j hlt hj
    have hmem : nm ∈ GUITAR_NOTES := by
      rw [hnm, List.getD_eq_getElem _ _ hlen]; exact List.getElem_mem hlen
    have hclose : noteDiff f nm < noteDiff f ni := by
      rw [hdi, noteDiff, ratAbs_eq_abs]
      rcases le_or_lt nm.frequency f with hle | hgt
      · rw [abs_of_nonneg (by linarith)]; linarith
      · rw [abs_of_neg (by linarith)]; linarith
    exact absurd (hmin nm hmem) (not_le.mpr hclose)
  -- the half-gap between adjacent notes is within the 5% tolerance
  have hgap : fj - fi ≤ fi * (10 / 100) := by
    have := guitarNotes_gap i (hj1 ▸ hj)
    rw [← hj1] at this
    exact this
  have htol : noteDiff f ni ≤ fi * (5 / 100) := by
    rw [hdi]; linarith
  -- the scan picks the earliest minimizer, which must be index i
  obtain ⟨k, hk, hkmin, hkfirst, hres⟩ := findClosestNote_scan f hf
  set nk := GUITAR_NOTES.getD k default with hnk
  have hmemk : nk ∈ GUITAR_NOTES := by
    rw [hnk, List.getD_eq_getElem _ _ hk]; exact List.getElem_mem hk
  have hmemi : ni ∈ GUITAR_NOTES := by
    rw [hni, List.getD_eq_getElem _ _ hi]; exact List.getElem_mem hi
  have hdk : noteDiff f nk = noteDiff f ni :=
    le_antisymm (hkmin ni hmemi) (hmin nk hmemk)
  have hfk : nk.frequency = fi ∨ nk.frequency = fj := by
    have h1 : |f - nk.frequency| = f - fi := by
      have := hdk
      rwa [noteDiff, noteDiff, ratAbs_eq_abs, ratAbs_eq_abs,
        abs_of_pos (by linarith : (0:ℚ) < f - fi)] at this
    rcases abs_cases (f - nk.frequency) with ⟨he, _⟩ | ⟨he, _⟩
    · left; rw [he] at h1; linarith
    · right; rw [he] at h1; linarith
  have hki : k = i := by
    rcases lt_trichotomy k i with hlt | heq' | hgt
    · exfalso
      have hmono := guitarNotes_freq_mono k i hlt hi
      rw [← hnk, ← hni] at hmono
      rcases hfk with h | h
      · exact absurd h (ne_of_lt hmono)
      · rw [h] at hmono
        exact absurd hfij (not_lt.mpr (le_of_lt hmono))
    · exact heq'
    · exfalso
      rcases lt_trichotomy k j with hkj | hkj | hkj
      · have h1 := guitarNotes_freq_mono i k hgt hk
        have h2 := guitarNotes_freq_mono k j hkj hj
        rcases hfk with h | h
        · rw [h] at h1; exact absurd h1 (lt_irrefl fi)
        · rw [h] at h2; exact absurd h2 (lt_irrefl fj)
      · -- k = j: the scan would have preferred the earlier index i
        have := hkfirst i (hkj ▸ hij)
        rw [← hni, hdk] at this
        exact absurd this (lt_irrefl _)
      · have h1 := guitarNotes_freq_mono j k hkj hk
        rw [← hnk, ← hnj] at h1
        rcases hfk with h | h
        · rw [h] at h1; exact absurd hfij (not_lt.mpr (le_of_lt h1))
        · rw [h] at h1; exact absurd h1 (lt_irrefl fj)
  have hnki : nk = ni := by rw [hnk, hni, hki]
  rw [hnki] at hres
  rw [hres, if_neg (not_lt.mpr htol)]

/-- Witness for claim C10 at the concrete midpoint f = 84.86 between E2
(82.41) and F2 (87.31): both are equidistant minimizers and the scan returns
E2, the one with the smaller catalog index. -/
theorem claim_C10_witness :
    noteDiff (8486 / 100) (GUITAR_NOTES.getD 0 default)
        = noteDiff (8486 / 100) (GUITAR_NOTES.getD 1 default) ∧
    findClosestNote (8486 / 100) = some (GUITAR_NOTES.getD 0 default) := by
  have h0 : GUITAR_NOTES.getD 0 default = firstNoteE2 := rfl
  have h1 : GUITAR_NOTES.getD 1 default = (⟨"F2", 87.31, "f2.mp3"⟩ : Note) := rfl
  constructor
  · rw [h0, h1]; norm_num [noteDiff, ratAbs, firstNoteE2]
  · refine claim_C10 (8486 / 100) (by norm_num) 0 1 (by norm_num [GUITAR_NOTES])
      (by norm_num) ?_ ?_
    · rw [h0, h1]; norm_num [noteDiff, ratAbs, firstNoteE2]
    · intro m hm
      rw [h0]
      simp only [GUITAR_NOTES, List.mem_cons, List.not_mem_nil, or_false] at hm
      rcases hm with rfl|rfl|rfl|rfl|rfl|rfl|rfl|rfl|rfl|rfl|rfl|rfl|rfl|rfl|rfl|rfl|rfl|rfl|rfl|rfl|rfl|rfl|rfl|rfl|rfl|rfl|rfl|rfl|rfl|rfl|rfl|rfl|rfl|rfl|rfl|rfl|rfl|rfl|rfl|rfl|rfl|rfl|rfl|rfl|rfl <;>
        norm_num [noteDiff, ratAbs, firstNoteE2]

/-
--------------------------------------------------------------------------
Detection pipeline state of src/utils/AudioUtils.ts.
--------------------------------------------------------------------------
-/

/- historySize = 5 (field of AudioUtils). -/
def historySize : ℕ := 5

/- minFrequency = 80, maxFrequency = 1200 (fields of AudioUtils). -/
def minFrequency : ℚ := 80
def maxFrequency : ℚ := 1200

/- detectionHistory.push(x) followed by `if (length > historySize) shift()`,
the push pattern shared by every detection loop. -/
def pushDetection (history : List ℚ) (x : ℚ) : List ℚ :=
  let h := history ++ [x]
  if historySize < h.length then h.tail else h

/- calculateVariance of AudioUtils: mean of squared deviations, 0 for fewer
than two samples. -/
def calculateVariance (values : List ℚ) (mean : ℚ) : ℚ :=
  if values.length < 2 then 0
  else (values.map fun v => (v - mean) * (v - mean)).sum / (values.length : ℚ)

/- reduce((a,b) => a+b, 0) / length, the moving average of the history. -/
def averageOf (l : List ℚ) : ℚ := l.sum / (l.length : ℚ)

/- One emission to the registered onPitchDetected callback. -/
abbrev Emission := Option Note × ℚ

/-
One tick of the interval installed by startWebPitchDetection.  Inputs: the
configured volume threshold, the current detectionHistory, the frame's RMS
and the three detector outputs (left to right: Macleod after `.freq`
extraction, YIN, AMDF; `none` models null/undefined/a thrown detector).  The
JS `typeof p === 'number' ? p : 0` branch maps a non-numeric survivor to 0,
which the range filter then drops, so survivors are exactly the numeric
results inside (minFrequency, maxFrequency).  Output: the new
detectionHistory and the emissions performed on this tick, in order.
-/
def webTick (threshold : ℚ) (history : List ℚ) (rms : ℚ)
    (pitches : List (Option ℚ)) : List ℚ × List Emission :=
  if threshold < rms then
    let validPitches := (pitches.filterMap id).filter
      fun p => decide (minFrequency < p) && decide (p < maxFrequency)
    if 0 < validPitches.length then
      let pitch := validPitches.sum / (validPitches.length : ℚ)
      if minFrequency < pitch ∧ pitch < maxFrequency then
        let h := pushDetection history pitch
        let averagePitch := averageOf h
        let variance := calculateVariance h averagePitch
        if variance < 5 ∧ 3 ≤ h.length then
          match findClosestNote averagePitch with
          | some n => (h, [(some n, rms)])
          | none => (h, [])
        else (h, [(none, rms)])
      else (history, [])
    else (history, [(none, rms)])
  else
    ([], [(none, rms)])

/-
One tick of the interval installed by startNativePitchDetection: the
(simulated) frequency is pushed unconditionally once the volume gate opens;
stability requires at least 3 samples and variance < 5; a resolution miss
emits (none, rms).
-/
def nativeTick (threshold : ℚ) (history : List ℚ) (rms : ℚ) (freq : ℚ) :
    List ℚ × List Emission :=
  if threshold < rms then
    let h := pushDetection history freq
    if 3 ≤ h.length then
      let averagePitch := averageOf h
      let variance := calculateVariance h averagePitch
      if variance < 5 then
        match findClosestNote averagePitch with
        | some n => (h, [(some n, rms)])
        | none => (h, [(none, rms)])
      else (h, [(none, rms)])
    else (h, [(none, rms)])
  else
    ([], [(none, rms)])

/-
One tick of the interval installed by resumePitchDetection on web: the
volume is sent to the callback first, unconditionally; the gate is
`rms >= threshold`; a locked note is emitted as a second emission; the
history is NOT cleared below the threshold.
-/
def resumeTick (threshold : ℚ) (history : List ℚ) (rms : ℚ)
    (pitches : List (Option ℚ)) : List ℚ × List Emission :=
  let firstEmit : List Emission := [(none, rms)]
  if threshold ≤ rms then
    let validPitches := (pitches.filterMap id).filter
      fun p => decide (minFrequency < p) && decide (p < maxFrequency)
    if 0 < validPitches.length then
      let pitch := validPitches.sum / (validPitches.length : ℚ)
      if minFrequency < pitch ∧ pitch < maxFrequency then
        let h := pushDetection history pitch
        let averagePitch := averageOf h
        let variance := calculateVariance h averagePitch
        if variance < 5 ∧ 3 ≤ h.length then
          match findClosestNote averagePitch with
          | some n => (h, firstEmit ++ [(some n, rms)])
          | none => (h, firstEmit)
        else (h, firstEmit)
      else (history, firstEmit)
    else (history, firstEmit)
  else
    (history, firstEmit)

/- On any tick, each loop leaves the history empty, unchanged, or pushed. -/
theorem webTick_hist (threshold rms : ℚ) (history : List ℚ)
    (pitches : List (Option ℚ)) :
    (webTick threshold history rms pitches).1 = []
    ∨ (webTick threshold history rms pitches).1 = history
    ∨ ∃ p, (webTick threshold history rms pitches).1 = pushDetection history p := by
  unfold webTick
  dsimp only
  repeat' split
  all_goals
    first
      | exact Or.inl rfl
      | exact Or.inr (Or.inl rfl)
      | exact Or.inr (Or.inr ⟨_, rfl⟩)

theorem nativeTick_hist (threshold rms freq : ℚ) (history : List ℚ) :
    (nativeTick threshold history rms freq).1 = []
    ∨ (nativeTick threshold history rms freq).1 = history
    ∨ ∃ p, (nativeTick threshold history rms freq).1 = pushDetection history p := by
  unfold nativeTick
  dsimp only
  repeat' split
  all_goals
    first
      | exact Or.inl rfl
      | exact Or.inr (Or.inl rfl)
      | exact Or.inr (Or.inr ⟨_, rfl⟩)

theorem resumeTick_hist (threshold rms : ℚ) (history : List ℚ)
    (pitches : List (Option ℚ)) :
    (resumeTick threshold history rms pitches).1 = []
    ∨ (resumeTick threshold history rms pitches).1 = history
    ∨ ∃ p, (resumeTick threshold history rms pitches).1 = pushDetection history p := by
  unfold resumeTick
  dsimp only
  repeat' split
  all_goals
    first
      | exact Or.inl rfl
      | exact Or.inr (Or.inl rfl)
      | exact Or.inr (Or.inr ⟨_, rfl⟩)

theorem pushDetection_le (history : List ℚ) (x : ℚ)
    (hlen : history.length ≤ historySize) :
    (pushDetection history x).length ≤ historySize := by
  unfold pushDetection
  dsimp only
  split
  · simpa using hlen
  · omega

/-- Claim C4: starting from a history within the bound, the detection window
never exceeds historySize after a push in any detection loop, and a push at
capacity evicts exactly the oldest element (appending the new one at the,
younger, end, so FIFO order is preserved); below capacity the push is a plain
append. -/
theorem claim_C4 (history : List ℚ) (x : ℚ)
    (hlen : history.length ≤ historySize) :
    (pushDetection history x).length ≤ historySize ∧
    (history.length = historySize → pushDetection history x = history.tail ++ [x]) ∧
    (history.length < historySize → pushDetection history x = history ++ [x]) ∧
    (∀ threshold rms pitches freq,
      (webTick threshold history rms pitches).1.length ≤ historySize ∧
      (nativeTick threshold history rms freq).1.length ≤ historySize ∧
      (resumeTick threshold history rms pitches).1.length ≤ historySize) := by
  refine ⟨pushDetection_le history x hlen, ?_, ?_, ?_⟩
  · intro hcap
    unfold pushDetection
    dsimp only
    rw [if_pos (by simp [hcap, historySize])]
    cases history with
    | nil => simp [historySize] at hcap
    | cons a t => simp
  · intro hlt
    unfold pushDetection
    dsimp only
    rw [if_neg (by simp; omega)]
  · intro threshold rms pitches freq
    refine ⟨?_, ?_, ?_⟩
    · rcases webTick_hist threshold rms history pitches with h | h | ⟨p, h⟩ <;>
        rw [h] <;> first
          | exact hlen
          | exact pushDetection_le history p hlen
          | simp [historySize]
    · rcases nativeTick_hist threshold rms freq history with h | h | ⟨p, h⟩ <;>
        rw [h] <;> first
          | exact hlen
          | exact pushDetection_le history p hlen
          | simp [historySize]
    · rcases resumeTick_hist threshold rms history pitches with h | h | ⟨p, h⟩ <;>
        rw [h] <;> first
          | exact hlen
          | exact pushDetection_le history p hlen
          | simp [historySize]

/-- Witness for claim C4 at a concrete full window: pushing 6 onto
[1,2,3,4,5] keeps the length at 5 and evicts exactly the oldest sample. -/
theorem claim_C4_witness :
    ([1, 2, 3, 4, 5] : List ℚ).length ≤ historySize ∧
    pushDetection [1, 2, 3, 4, 5] 6 = [2, 3, 4, 5, 6] := by
  have h := claim_C4 [1, 2, 3, 4, 5] 6 (by simp [historySize])
  refine ⟨by simp [historySize], ?_⟩
  have := h.2.1 (by simp [historySize])
  simpa using this

/-- Counterexample to claim C3 as stated: on a below-threshold tick of the
loop installed by resumePitchDetection (threshold 1/100, RMS 0, prior window
[440]), the pipeline emits (none, RMS) but leaves the detection window
unchanged instead of clearing it. -/
theorem claim_C3_counterexample :
    (0 : ℚ) < 1 / 100 ∧
    resumeTick (1 / 100) [440] 0 [] = ([440], [(none, 0)]) ∧
    ([440] : List ℚ) ≠ [] := by
  refine ⟨by norm_num, ?_, by simp⟩
  unfold resumeTick
  dsimp only
  rw [if_neg (by norm_num)]

/-- Claim C3 amended: on a below-threshold tick, the startWebPitchDetection
and startNativePitchDetection loops emit (none, RMS) and clear the detection
window regardless of prior contents, but the loop installed by
resumePitchDetection emits (none, RMS) and leaves the window unchanged. -/
theorem claim_C3_amended (threshold rms : ℚ) (history : List ℚ)
    (pitches : List (Option ℚ)) (freq : ℚ) (h : rms < threshold) :
    webTick threshold history rms pitches = ([], [(none, rms)]) ∧
    nativeTick threshold history rms freq = ([], [(none, rms)]) ∧
    resumeTick threshold history rms pitches = (history, [(none, rms)]) := by
  refine ⟨?_, ?_, ?_⟩
  · unfold webTick
    dsimp only
    rw [if_neg (not_lt.mpr (le_of_lt h))]
  · unfold nativeTick
    dsimp only
    rw [if_neg (not_lt.mpr (le_of_lt h))]
  · unfold resumeTick
    dsimp only
    rw [if_neg (not_le.mpr h)]

/-- Witness for the amended claim C3 at threshold 1/100 and RMS 0 with prior
window [440]: the start loops clear, the resume loop does not. -/
theorem claim_C3_witness :
    (0 : ℚ) < 1 / 100 ∧
    webTick (1 / 100) [440] 0 [] = ([], [(none, 0)]) ∧
    nativeTick (1 / 100) [440] 0 440 = ([], [(none, 0)]) ∧
    resumeTick (1 / 100) [440] 0 [] = ([440], [(none, 0)]) := by
  have h := claim_C3_amended (1 / 100) 0 [440] [] 440 (by norm_num)
  exact ⟨by norm_num, h.1, h.2.1, h.2.2⟩

/- Concrete evaluations of the note table used by the pipeline witnesses:
440 Hz resolves to A4; 1100 Hz is a resolution miss (closest note B5 at
987.77 Hz differs by 112.23 > 5% of 987.77). -/
theorem findClosestNote_440 : findClosestNote 440 = some ⟨"A4", 440.00, "a4.mp3"⟩ := by
  norm_num [findClosestNote, closestAux, GUITAR_NOTES, noteDiff, ratAbs]

theorem findClosestNote_1100 : findClosestNote 1100 = none := by
  norm_num [findClosestNote, closestAux, GUITAR_NOTES, noteDiff, ratAbs]

/- Evaluation of each loop's tick once the volume gate is open and a single
valid detector reading p (in the plausible range) survives the filter. -/
theorem webTick_open (threshold rms p : ℚ) (history : List ℚ)
    (hgate : threshold < rms) (hlo : minFrequency < p) (hhi : p < maxFrequency) :
    webTick threshold history rms [some p] =
      (if calculateVariance (pushDetection history p)
            (averageOf (pushDetection history p)) < 5
          ∧ 3 ≤ (pushDetection history p).length then
        match findClosestNote (averageOf (pushDetection history p)) with
        | some n => (pushDetection history p, [(some n, rms)])
        | none => (pushDetection history p, [])
       else (pushDetection history p, [(none, rms)])) := by
  unfold webTick
  dsimp only
  rw [if_pos hgate]
  have hfil : (([some p].filterMap id).filter
      fun q => decide (minFrequency < q) && decide (q < maxFrequency)) = [p] := by
    simp [hlo, hhi]
  rw [hfil]
  rw [if_pos (by simp : 0 < ([p] : List ℚ).length)]
  have hsum : ([p] : List ℚ).sum / ((([p] : List ℚ).length : ℕ) : ℚ) = p := by simp
  rw [hsum]
  rw [if_pos ⟨hlo, hhi⟩]

theorem resumeTick_open (threshold rms p : ℚ) (history : List ℚ)
    (hgate : threshold ≤ rms) (hlo : minFrequency < p) (hhi : p < maxFrequency) :
    resumeTick threshold history rms [some p] =
      (if calculateVariance (pushDetection history p)
            (averageOf (pushDetection history p)) < 5
          ∧ 3 ≤ (pushDetection history p).length then
        match findClosestNote (averageOf (pushDetection history p)) with
        | some n => (pushDetection history p, [(none, rms), (some n, rms)])
        | none => (pushDetection history p, [(none, rms)])
       else (pushDetection history p, [(none, rms)])) := by
  unfold resumeTick
  dsimp only
  rw [if_pos hgate]
  have hfil : (([some p].filterMap id).filter
      fun q => decide (minFrequency < q) && decide (q < maxFrequency)) = [p] := by
    simp [hlo, hhi]
  rw [hfil]
  rw [if_pos (by simp : 0 < ([p] : List ℚ).length)]
  have hsum : ([p] : List ℚ).sum / ((([p] : List ℚ).length : ℕ) : ℚ) = p := by simp
  rw [hsum]
  rw [if_pos ⟨hlo, hhi⟩]
  simp [averageOf]

theorem nativeTick_open (threshold rms p : ℚ) (history : List ℚ)
    (hgate : threshold < rms) :
    nativeTick threshold history rms p =
      (if 3 ≤ (pushDetection history p).length then
        (if calculateVariance (pushDetection history p)
              (averageOf (pushDetection history p)) < 5 then
          match findClosestNote (averageOf (pushDetection history p)) with
          | some n => (pushDetection history p, [(some n, rms)])
          | none => (pushDetection history p, [(none, rms)])
         else (pushDetection history p, [(none, rms)]))
       else (pushDetection history p, [(none, rms)])) := by
  unfold nativeTick
  dsimp only
  rw [if_pos hgate]

/-- Counterexample to claim C2 as stated: on a tick of the
startWebPitchDetection loop with the gate open (RMS 1/10 > threshold 1/100)
and a stable window ([1100, 1100, 1100] after the push: variance 0 < 5,
length 3 ≥ 3) whose mean 1100 fails resolution, the loop emits NOTHING — the
volume is not reported on that cadence tick. -/
theorem claim_C2_counterexample :
    (1 / 100 : ℚ) < 1 / 10 ∧
    calculateVariance (pushDetection [1100, 1100] 1100)
        (averageOf (pushDetection [1100, 1100] 1100)) < 5 ∧
    3 ≤ (pushDetection [1100, 1100] 1100).length ∧
    (webTick (1 / 100) [1100, 1100] (1 / 10) [some 1100]).2 = [] := by
  have hpush : pushDetection [1100, 1100] (1100 : ℚ) = [1100, 1100, 1100] := by
    norm_num [pushDetection, historySize]
  have havg : averageOf ([1100, 1100, 1100] : List ℚ) = 1100 := by
    norm_num [averageOf]
  have hvar : calculateVariance ([1100, 1100, 1100] : List ℚ) 1100 = 0 := by
    norm_num [calculateVariance]
  refine ⟨by norm_num, ?_, ?_, ?_⟩
  · rw [hpush, havg, hvar]; norm_num
  · rw [hpush]; norm_num
  · rw [webTick_open (1 / 100) (1 / 10) 1100 [1100, 1100] (by norm_num)
      (by norm_num [minFrequency]) (by norm_num [maxFrequency])]
    rw [hpush, havg, hvar]
    rw [if_pos (by norm_num)]
    rw [findClosestNote_1100]

/-- Claim C2 amended: on an open-gate tick with a single valid detector
reading p, when the pushed window is stable (variance < 5 and ≥ 3 samples)
the mean is resolved through findClosestNote and (note, volume) is emitted by
all three loops; when resolution fails, the native loop emits (none, volume)
and the resume loop reports the volume through its unconditional leading
(none, volume) emission, but the startWebPitchDetection loop emits nothing on
that tick; when not stable, every loop emits (none, volume). -/
theorem claim_C2_amended (threshold rms p : ℚ) (history : List ℚ)
    (hgate : threshold < rms) (hlo : minFrequency < p) (hhi : p < maxFrequency) :
    ((calculateVariance (pushDetection history p)
          (averageOf (pushDetection history p)) < 5 ∧
        3 ≤ (pushDetection history p).length) →
      (∀ n, findClosestNote (averageOf (pushDetection history p)) = some n →
        webTick threshold history rms [some p]
          = (pushDetection history p, [(some n, rms)]) ∧
        nativeTick threshold history rms p
          = (pushDetection history p, [(some n, rms)]) ∧
        resumeTick threshold history rms [some p]
          = (pushDetection history p, [(none, rms), (some n, rms)])) ∧
      (findClosestNote (averageOf (pushDetection history p)) = none →
        webTick threshold history rms [some p] = (pushDetection history p, []) ∧
        nativeTick threshold history rms p
          = (pushDetection history p, [(none, rms)]) ∧
        resumeTick threshold history rms [some p]
          = (pushDetection history p, [(none, rms)]))) ∧
    (¬(calculateVariance (pushDetection history p)
          (averageOf (pushDetection history p)) < 5 ∧
        3 ≤ (pushDetection history p).length) →
      webTick threshold history rms [some p]
        = (pushDetection history p, [(none, rms)]) ∧
      nativeTick threshold history rms p
        = (pushDetection history p, [(none, rms)]) ∧
      resumeTick threshold history rms [some p]
        = (pushDetection history p, [(none, rms)])) := by
  constructor
  · intro hstable
    constructor
    · intro n hn
      refine ⟨?_, ?_, ?_⟩
      · rw [webTick_open _ _ _ _ hgate hlo hhi, if_pos hstable, hn]
      · rw [nativeTick_open _ _ _ _ hgate, if_pos hstable.2, if_pos hstable.1, hn]
      · rw [resumeTick_open _ _ _ _ (le_of_lt hgate) hlo hhi, if_pos hstable, hn]
    · intro hn
      refine ⟨?_, ?_, ?_⟩
      · rw [webTick_open _ _ _ _ hgate hlo hhi, if_pos hstable, hn]
      · rw [nativeTick_open _ _ _ _ hgate, if_pos hstable.2, if_pos hstable.1, hn]
      · rw [resumeTick_open _ _ _ _ (le_of_lt hgate) hlo hhi, if_pos hstable, hn]
  · intro hunst
    refine ⟨?_, ?_, ?_⟩
    · rw [webTick_open _ _ _ _ hgate hlo hhi, if_neg hunst]
    · rw [nativeTick_open _ _ _ _ hgate]
      by_cases h3 : 3 ≤ (pushDetection history p).length
      · have hv : ¬ calculateVariance (pushDetection history p)
            (averageOf (pushDetection history p)) < 5 :=
          fun hv => hunst ⟨hv, h3⟩
        rw [if_pos h3, if_neg hv]
      · rw [if_neg h3]
    · rw [resumeTick_open _ _ _ _ (le_of_lt hgate) hlo hhi, if_neg hunst]

/-- Witness for the amended claim C2 on a stable, resolvable tick: window
[440, 441] plus reading 439 gives mean 440 and variance 2/3; all three loops
lock A4 and report the volume. -/
theorem claim_C2_witness :
    (1 / 100 : ℚ) < 1 / 10 ∧
    findClosestNote (averageOf (pushDetection [440, 441] 439))
      = some ⟨"A4", 440.00, "a4.mp3"⟩ ∧
    webTick (1 / 100) [440, 441] (1 / 10) [some 439]
      = ([440, 441, 439], [(some ⟨"A4", 440.00, "a4.mp3"⟩, 1 / 10)]) ∧
    nativeTick (1 / 100) [440, 441] (1 / 10) 439
      = ([440, 441, 439], [(some ⟨"A4", 440.00, "a4.mp3"⟩, 1 / 10)]) ∧
    resumeTick (1 / 100) [440, 441] (1 / 10) [some 439]
      = ([440, 441, 439],
          [(none, 1 / 10), (some ⟨"A4", 440.00, "a4.mp3"⟩, 1 / 10)]) := by
  have hpush : pushDetection [440, 441] (439 : ℚ) = [440, 441, 439] := by
    norm_num [pushDetection, historySize]
  have havg : averageOf ([440, 441, 439] : List ℚ) = 440 := by norm_num [averageOf]
  have hvar : calculateVariance ([440, 441, 439] : List ℚ) 440 = 2 / 3 := by
    norm_num [calculateVariance]
  have hfc : findClosestNote (averageOf (pushDetection [440, 441] 439))
      = some ⟨"A4", 440.00, "a4.mp3"⟩ := by
    rw [hpush, havg, findClosestNote_440]
  have h := (claim_C2_amended (1 / 100) (1 / 10) 439 [440, 441] (by norm_num)
      (by norm_num [minFrequency]) (by norm_num [maxFrequency])).1
  have hstable : calculateVariance (pushDetection [440, 441] 439)
      (averageOf (pushDetection [440, 441] 439)) < 5 ∧
      3 ≤ (pushDetection [440, 441] 439).length := by
    rw [hpush, havg, hvar]
    norm_num
  obtain ⟨hsome, -⟩ := h hstable
  obtain ⟨hw, hn, hr⟩ := hsome _ hfc
  rw [hpush] at hw hn hr
  exact ⟨by norm_num, hfc, hw, hn, hr⟩

/-
--------------------------------------------------------------------------
Sequence generation (src/constants/Notes.ts getRandomNote /
getRandomNoteWithinInterval, and generateNewSequence of the training screen).
Math.random() draws are passed in as rationals in [0,1).
--------------------------------------------------------------------------
-/

/- Math.floor(u * n) for a Math.random() draw u. -/
def randIndex (u : ℚ) (n : ℕ) : ℕ := (Int.floor (u * (n : ℚ))).toNat

/- getRandomNote: a uniformly random catalog entry. -/
def getRandomNote (u : ℚ) : Note :=
  GUITAR_NOTES.getD (randIndex u GUITAR_NOTES.length) default

/- GUITAR_NOTES.findIndex(note => note.name === n.name); List.findIdx returns
the list length where JS returns -1, so "not found" is `length ≤ result`. -/
def catalogIndex (n : Note) : ℕ :=
  GUITAR_NOTES.findIdx fun m => m.name == n.name

/- getRandomNoteWithinInterval: clamp the index window to the table bounds
and draw uniformly inside it; fall back to an unconstrained random note when
the reference is not in the table. -/
def getRandomNoteWithinInterval (u : ℚ) (referenceNote : Note)
    (maxInterval : ℕ) : Note :=
  let referenceIndex := catalogIndex referenceNote
  if GUITAR_NOTES.length ≤ referenceIndex then getRandomNote u
  else
    let minIndex := referenceIndex - maxInterval
    let maxIndex := min (GUITAR_NOTES.length - 1) (referenceIndex + maxInterval)
    let randomIndex := minIndex + randIndex u (maxIndex - minIndex + 1)
    GUITAR_NOTES.getD randomIndex default

/- The `for (let i = 1; i < notesPerTurn; i++)` loop of generateNewSequence:
each further note is drawn within maxInterval of its predecessor. -/
def generateTail (maxInterval : ℕ) (us : ℕ → ℚ) : ℕ → Note → ℕ → List Note
  | _, _, 0 => []
  | i, prev, k + 1 =>
      let n := getRandomNoteWithinInterval (us i) prev maxInterval
      n :: generateTail maxInterval us (i + 1) n k

/- generateNewSequence of the training screen: a random first note, then
notesPerTurn - 1 interval-constrained notes. -/
def generateNewSequence (notesPerTurn maxInterval : ℕ) (us : ℕ → ℚ) :
    List Note :=
  let firstNote := getRandomNote (us 0)
  firstNote :: generateTail maxInterval us 1 firstNote (notesPerTurn - 1)

/- findIndex-by-name recovers the catalog position (names are unique). -/
theorem catalogIndex_self_aux :
    ((List.range GUITAR_NOTES.length).all fun k =>
      GUITAR_NOTES.findIdx
        (fun m => m.name == (GUITAR_NOTES.getD k default).name) == k) = true := by
  decide

theorem catalogIndex_self (k : ℕ) (hk : k < GUITAR_NOTES.length) :
    catalogIndex (GUITAR_NOTES.getD k default) = k := by
  have h := List.all_eq_true.mp catalogIndex_self_aux k (List.mem_range.mpr hk)
  simpa [catalogIndex] using h

theorem randIndex_lt (u : ℚ) (h0 : 0 ≤ u) (h1 : u < 1) (n : ℕ) (hn : 0 < n) :
    randIndex u n < n := by
  have hnn : (0 : ℚ) ≤ (n : ℚ) := Nat.cast_nonneg n
  have hfl0 : (0 : ℤ) ≤ Int.floor (u * (n : ℚ)) :=
    Int.floor_nonneg.mpr (mul_nonneg h0 hnn)
  have hfln : Int.floor (u * (n : ℚ)) < (n : ℤ) := by
    apply Int.floor_lt.mpr
    push_cast
    calc u * (n : ℚ) < 1 * (n : ℚ) := by
          apply mul_lt_mul_of_pos_right h1
          exact_mod_cast hn
      _ = (n : ℚ) := one_mul _
  unfold randIndex
  omega

theorem getRandomNote_spec (u : ℚ) (h0 : 0 ≤ u) (h1 : u < 1) :
    ∃ k, k < GUITAR_NOTES.length ∧ getRandomNote u = GUITAR_NOTES.getD k default := by
  refine ⟨randIndex u GUITAR_NOTES.length, ?_, rfl⟩
  exact randIndex_lt u h0 h1 _ (by simp [GUITAR_NOTES])

theorem getRandomNoteWithinInterval_spec (u : ℚ) (h0 : 0 ≤ u) (h1 : u < 1)
    (r maxInterval : ℕ) (hr : r < GUITAR_NOTES.length) :
    ∃ k, k < GUITAR_NOTES.length ∧
      getRandomNoteWithinInterval u (GUITAR_NOTES.getD r default) maxInterval
        = GUITAR_NOTES.getD k default ∧
      (k : ℤ) - (r : ℤ) ≤ (maxInterval : ℤ) ∧
      (r : ℤ) - (k : ℤ) ≤ (maxInterval : ℤ) := by
  unfold getRandomNoteWithinInterval
  dsimp only
  rw [catalogIndex_self r hr]
  rw [if_neg (not_le.mpr hr)]
  set minIndex := r - maxInterval with hmin
  set maxIndex := min (GUITAR_NOTES.length - 1) (r + maxInterval) with hmax
  have hlen : 0 < GUITAR_NOTES.length := by simp [GUITAR_NOTES]
  have hminr : minIndex ≤ r := by omega
  have hrmax : r ≤ maxIndex := by omega
  have hspan : 0 < maxIndex - minIndex + 1 := by omega
  have hrand := randIndex_lt u h0 h1 (maxIndex - minIndex + 1) hspan
  refine ⟨minIndex + randIndex u (maxIndex - minIndex + 1), ?_, rfl, ?_, ?_⟩
  · omega
  · omega
  · omega

/- Adjacent catalog-index distance bound used by claim C5. -/
def adjWithin (maxInterval : ℕ) (a b : Note) : Prop :=
  |(catalogIndex a : ℤ) - (catalogIndex b : ℤ)| ≤ (maxInterval : ℤ)

theorem generateTail_spec (maxInterval : ℕ) (us : ℕ → ℚ)
    (hus : ∀ i, 0 ≤ us i ∧ us i < 1) :
    ∀ (k i r : ℕ), r < GUITAR_NOTES.length →
      (generateTail maxInterval us i (GUITAR_NOTES.getD r default) k).length = k ∧
      (∀ n ∈ generateTail maxInterval us i (GUITAR_NOTES.getD r default) k,
        n ∈ GUITAR_NOTES) ∧
      List.Chain' (adjWithin maxInterval)
        (GUITAR_NOTES.getD r default
          :: generateTail maxInterval us i (GUITAR_NOTES.getD r default) k) := by
  intro k
  induction k with
  | zero =>
      intro i r hr
      simp [generateTail]
  | succ k ih =>
      intro i r hr
      obtain ⟨k', hk', hkeq, hub, hlb⟩ :=
        getRandomNoteWithinInterval_spec (us i) (hus i).1 (hus i).2 r maxInterval hr
      have hstep : generateTail maxInterval us i (GUITAR_NOTES.getD r default) (k + 1)
          = GUITAR_NOTES.getD k' default
            :: generateTail maxInterval us (i + 1) (GUITAR_NOTES.getD k' default) k := by
        rw [generateTail]
        rw [hkeq]
      obtain ⟨ihlen, ihmem, ihchain⟩ := ih (i + 1) k' hk'
      rw [hstep]
      refine ⟨by rw [List.length_cons, ihlen], ?_, ?_⟩
      · intro n hn
        rcases List.mem_cons.mp hn with rfl | hn'
        · rw [List.getD_eq_getElem _ _ hk']
          exact List.getElem_mem hk'
        · exact ihmem n hn'
      · rw [List.chain'_cons]
        refine ⟨?_, ihchain⟩
        unfold adjWithin
        rw [catalogIndex_self r hr, catalogIndex_self k' hk']
        rw [abs_le]
        omega

/-- Claim C5: for every generated sequence with configured length L ≥ 1 and
interval bound M ≥ 0 (and any stream of Math.random() draws in [0,1)), the
sequence has exactly L notes from the catalog, and every adjacent pair's
catalog-index distance is at most M. -/
theorem claim_C5 (L M : ℕ) (hL : 1 ≤ L) (us : ℕ → ℚ)
    (hus : ∀ i, 0 ≤ us i ∧ us i < 1) :
    (generateNewSequence L M us).length = L ∧
    (∀ n ∈ generateNewSequence L M us, n ∈ GUITAR_NOTES) ∧
    List.Chain' (adjWithin M) (generateNewSequence L M us) := by
  obtain ⟨k0, hk0, hfirst⟩ := getRandomNote_spec (us 0) (hus 0).1 (hus 0).2
  have hdef : generateNewSequence L M us
      = GUITAR_NOTES.getD k0 default
        :: generateTail M us 1 (GUITAR_NOTES.getD k0 default) (L - 1) := by
    unfold generateNewSequence
    dsimp only
    rw [hfirst]
  obtain ⟨hlen, hmem, hchain⟩ := generateTail_spec M us hus (L - 1) 1 k0 hk0
  rw [hdef]
  refine ⟨?_, ?_, hchain⟩
  · rw [List.length_cons, hlen]
    omega
  · intro n hn
    rcases List.mem_cons.mp hn with rfl | hn'
    · rw [List.getD_eq_getElem _ _ hk0]
      exact List.getElem_mem hk0
    · exact hmem n hn'

/-- Witness for claim C5 with L = 3, M = 2 and the all-zero draw stream: the
hypotheses hold and the generated sequence has exactly 3 notes. -/
theorem claim_C5_witness :
    (1 ≤ 3 ∧ ∀ _i : ℕ, (0 : ℚ) ≤ 0 ∧ (0 : ℚ) < 1) ∧
    (generateNewSequence 3 2 (fun _ => 0)).length = 3 :=
  ⟨⟨by norm_num, fun _ => by norm_num⟩,
    (claim_C5 3 2 (by norm_num) (fun _ => 0) (fun _ => by norm_num)).1⟩

/-
--------------------------------------------------------------------------
Training orchestrator (state machine of the training screen).
--------------------------------------------------------------------------
-/

/- The configuration consumed by the training screen (AppContext settings). -/
structure Settings where
  notesPerTurn : ℕ
  maxInterval : ℕ
  repetitionsRequired : ℕ
  totalSequences : ℕ
deriving DecidableEq

/- The mutable state of the training screen that the sequencing logic reads
and writes: the current sequence, the matched positions, the repetition
counter, the completion flag and the sequence counter of AppContext. -/
structure TrainingState where
  currentNotes : List Note
  notesPlayed : List ℕ
  correctSequencesPlayed : ℕ
  isTrainingComplete : Bool
  currentSequence : ℕ
deriving DecidableEq

/- handleTrainingStepComplete: finish the run when the finite budget is
exhausted, otherwise bump the sequence counter and (after the settling
delay, modelled as part of the same transition) install a freshly generated
sequence with progress reset. -/
def handleTrainingStepComplete (s : Settings) (us : ℕ → ℚ)
    (st : TrainingState) : TrainingState :=
  if 0 < s.totalSequences ∧ s.totalSequences ≤ st.currentSequence then
    { st with isTrainingComplete := true }
  else
    { st with
        currentSequence := st.currentSequence + 1,
        currentNotes := generateNewSequence s.notesPerTurn s.maxInterval us,
        notesPlayed := [],
        correctSequencesPlayed := 0 }

/- handleSequenceCompleted: count the repetition; either the whole step is
complete or progress resets for another repetition of the same sequence. -/
def handleSequenceCompleted (s : Settings) (us : ℕ → ℚ)
    (st : TrainingState) : TrainingState :=
  let newCount := st.correctSequencesPlayed + 1
  let st1 := { st with correctSequencesPlayed := newCount }
  if s.repetitionsRequired ≤ newCount then handleTrainingStepComplete s us st1
  else { st1 with notesPlayed := [] }

/- The detection useEffect of the training screen: on a non-null detected
note, compare its name with the expected sequence position
(len(notesPlayed)); an exact match appends that position, and completing the
last position runs handleSequenceCompleted; otherwise nothing changes. -/
def onDetection (s : Settings) (us : ℕ → ℚ) (st : TrainingState)
    (detected : Option Note) : TrainingState :=
  match detected with
  | none => st
  | some note =>
      let expectedNoteIndex := st.notesPlayed.length
      if expectedNoteIndex < st.currentNotes.length ∧
          note.name = (st.currentNotes.getD expectedNoteIndex default).name then
        let st1 := { st with notesPlayed := st.notesPlayed ++ [expectedNoteIndex] }
        if expectedNoteIndex = st.currentNotes.length - 1 then
          handleSequenceCompleted s us st1
        else st1
      else st

/- The two catalog entries used by the orchestrator scenarios. -/
def noteC4 : Note := ⟨"C4", 261.63, "c4.mp3"⟩
def noteE4 : Note := ⟨"E4", 329.63, "e4.mp3"⟩

/-- Claim C6: in AwaitingInput, each non-none detection event is compared by
name against the expected note at position len(notesPlayed): a mismatch
leaves the state unchanged (no penalty, no reset); a match appends that
position (running the completion handler when it was the last position).  In
particular, on sequence [C4, E4] with repetitionsRequired = 2, the wrong-order
feed E4, C4 never matches position 1 and completes nothing, while the ordered
feed C4, E4, C4, E4 advances through exactly one TrialComplete (sequence
counter bumped once, fresh sequence installed, progress reset). -/
theorem claim_C6 :
    (∀ (s : Settings) (us : ℕ → ℚ) (st : TrainingState) (note : Note),
      note.name ≠ (st.currentNotes.getD st.notesPlayed.length default).name →
      onDetection s us st (some note) = st) ∧
    (∀ (s : Settings) (us : ℕ → ℚ) (st : TrainingState) (note : Note),
      st.notesPlayed.length < st.currentNotes.length →
      note.name = (st.currentNotes.getD st.notesPlayed.length default).name →
      st.notesPlayed.length ≠ st.currentNotes.length - 1 →
      onDetection s us st (some note)
        = { st with notesPlayed := st.notesPlayed ++ [st.notesPlayed.length] }) ∧
    (∀ (s : Settings) (us : ℕ → ℚ) (st : TrainingState) (note : Note),
      st.notesPlayed.length < st.currentNotes.length →
      note.name = (st.currentNotes.getD st.notesPlayed.length default).name →
      st.notesPlayed.length = st.currentNotes.length - 1 →
      onDetection s us st (some note)
        = handleSequenceCompleted s us
            { st with notesPlayed := st.notesPlayed ++ [st.notesPlayed.length] }) ∧
    (List.foldl (onDetection ⟨2, 5, 2, 10⟩ fun _ => 0)
        ⟨[noteC4, noteE4], [], 0, false, 1⟩
        [some noteE4, some noteC4]
      = ⟨[noteC4, noteE4], [0], 0, false, 1⟩) ∧
    (List.foldl (onDetection ⟨2, 5, 2, 10⟩ fun _ => 0)
        ⟨[noteC4, noteE4], [], 0, false, 1⟩
        [some noteC4, some noteE4, some noteC4, some noteE4]
      = ⟨generateNewSequence 2 5 fun _ => 0, [], 0, false, 2⟩) := by
  refine ⟨?_, ?_, ?_, ?_, ?_⟩
  · intro s us st note hne
    unfold onDetection
    dsimp only
    rw [if_neg fun hc => hne hc.2]
  · intro s us st note hlt heq hne
    unfold onDetection
    dsimp only
    rw [if_pos ⟨hlt, heq⟩, if_neg hne]
  · intro s us st note hlt heq hfin
    unfold onDetection
    dsimp only
    rw [if_pos ⟨hlt, heq⟩, if_pos hfin]
  · rfl
  · rfl

/-- Witness for claim C6 at a concrete mismatch: with sequence [C4, E4] and
no progress, a detected E4 differs from the expected C4 and the state is
unchanged. -/
theorem claim_C6_witness :
    noteE4.name ≠ (([noteC4, noteE4].getD 0 default).name) ∧
    onDetection ⟨2, 5, 2, 10⟩ (fun _ => 0)
        ⟨[noteC4, noteE4], [], 0, false, 1⟩ (some noteE4)
      = ⟨[noteC4, noteE4], [], 0, false, 1⟩ := by
  constructor
  · simp [noteC4, noteE4]
  · exact claim_C6.1 ⟨2, 5, 2, 10⟩ (fun _ => 0)
      ⟨[noteC4, noteE4], [], 0, false, 1⟩ noteE4 (by simp [noteC4, noteE4])

/-- Claim C9: from TrialComplete, an exhausted finite budget transitions to
Finished (completion flag set, nothing else changes — in particular no
further sequence is generated); otherwise the sequence counter is
incremented and, after the settling delay, a fresh sequence is installed
with progress reset.  With totalSequences = 1, a single completed trial ends
the run with the current sequence left in place. -/
theorem claim_C9 (s : Settings) (us : ℕ → ℚ) (st : TrainingState) :
    (0 < s.totalSequences → s.totalSequences ≤ st.currentSequence →
      handleTrainingStepComplete s us st = { st with isTrainingComplete := true }) ∧
    (¬(0 < s.totalSequences ∧ s.totalSequences ≤ st.currentSequence) →
      handleTrainingStepComplete s us st
        = { st with
              currentSequence := st.currentSequence + 1,
              currentNotes := generateNewSequence s.notesPerTurn s.maxInterval us,
              notesPlayed := [],
              correctSequencesPlayed := 0 }) ∧
    (List.foldl (onDetection ⟨1, 5, 1, 1⟩ fun _ => 0)
        ⟨[noteC4], [], 0, false, 1⟩ [some noteC4]
      = ⟨[noteC4], [0], 1, true, 1⟩) := by
  refine ⟨?_, ?_, rfl⟩
  · intro h1 h2
    unfold handleTrainingStepComplete
    rw [if_pos ⟨h1, h2⟩]
  · intro h
    unfold handleTrainingStepComplete
    rw [if_neg h]

/-- Witness for claim C9 with budget totalSequences = 1 already reached: the
step-complete transition only sets the completion flag. -/
theorem claim_C9_witness :
    0 < (1 : ℕ) ∧ (1 : ℕ) ≤ 1 ∧
    handleTrainingStepComplete ⟨2, 5, 2, 1⟩ (fun _ => 0) ⟨[], [], 0, false, 1⟩
      = ⟨[], [], 0, true, 1⟩ := by
  refine ⟨by norm_num, by norm_num, ?_⟩
  exact (claim_C9 ⟨2, 5, 2, 1⟩ (fun _ => 0) ⟨[], [], 0, false, 1⟩).1
    (by norm_num) (by norm_num)

/-
--------------------------------------------------------------------------
Detection session control (pause/resume and playback of AudioUtils.ts).
The object fields involved in pause/resume are modelled as booleans: a
non-null interval handle is `true`; hasWebResources bundles the non-nullness
of audioContext, analyser and recordingDataArray checked by the resume path.
--------------------------------------------------------------------------
-/

inductive PlatformOS
  | web
  | ios
  | android
deriving DecidableEq

structure AudioState where
  pitchDetectionInterval : Bool
  mobileRecordingInterval : Bool
  isMobileListening : Bool
  isPitchDetectionPaused : Bool
  pitchDetectionWasRunning : Bool
  hasWebResources : Bool
deriving DecidableEq

/- startNativePitchDetection / startEnhancedSimulatedDetection effects on the
session fields: mark mobile listening and install the recording interval. -/
def startNativePitchDetectionState (st : AudioState) : AudioState :=
  { st with isMobileListening := true, mobileRecordingInterval := true }

def startEnhancedSimulatedDetectionState (st : AudioState) : AudioState :=
  { st with isMobileListening := true, mobileRecordingInterval := true }

/- pausePitchDetection: record whether detection was running, then (only if
it was) cancel the interval timers and mark the detection paused. -/
def pausePitchDetection (st : AudioState) : AudioState :=
  let wasRunning := st.pitchDetectionInterval || st.mobileRecordingInterval
  let st1 := { st with pitchDetectionWasRunning := wasRunning }
  if wasRunning = false then st1
  else
    { st1 with
        pitchDetectionInterval := false,
        mobileRecordingInterval := false,
        isPitchDetectionPaused := true }

/- resumePitchDetection: restart the platform's sampling loop, but only when
paused with the was-running flag set; on web this additionally requires the
retained audio resources. -/
def resumePitchDetection (p : PlatformOS) (st : AudioState) : AudioState :=
  if st.isPitchDetectionPaused = false || st.pitchDetectionWasRunning = false then st
  else
    let st1 :=
      match p with
      | PlatformOS.web =>
          if st.hasWebResources then { st with pitchDetectionInterval := true } else st
      | PlatformOS.ios => startNativePitchDetectionState st
      | PlatformOS.android => startEnhancedSimulatedDetectionState st
    { st1 with isPitchDetectionPaused := false, pitchDetectionWasRunning := false }

/- playNote: pause detection unless already paused, play the sample (which
may throw — soundFails), resume in the finally block on both paths; the
outer catch only logs, so no error escapes playNote. -/
def playNote (p : PlatformOS) (soundFails : Bool) (st : AudioState) : AudioState :=
  let wasPitchDetectionPaused := st.isPitchDetectionPaused
  let st1 := if wasPitchDetectionPaused then st else pausePitchDetection st
  match (if soundFails then Except.error () else Except.ok ()) with
  | Except.ok _ =>
      if wasPitchDetectionPaused then st1 else resumePitchDetection p st1
  | Except.error _ =>
      if wasPitchDetectionPaused then st1 else resumePitchDetection p st1

/- The for-loop of playSequence: play each note in turn (playNote never
throws). -/
def playNotesLoop (p : PlatformOS) (fails : ℕ → Bool) :
    ℕ → List Note → AudioState → AudioState
  | _, [], st => st
  | i, _ :: rest, st => playNotesLoop p fails (i + 1) rest (playNote p (fails i) st)

/- playSequence: pause unless already paused, play all notes, resume in the
finally block; the outer catch only logs. -/
def playSequence (p : PlatformOS) (fails : ℕ → Bool) (notes : List Note)
    (st : AudioState) : AudioState :=
  let wasPitchDetectionPaused := st.isPitchDetectionPaused
  let st1 := if wasPitchDetectionPaused then st else pausePitchDetection st
  let st2 := playNotesLoop p fails 0 notes st1
  if wasPitchDetectionPaused then st2 else resumePitchDetection p st2

/- playCurrentSequenceWithNotes of the training screen: empty sequences are
skipped; otherwise pause detection, play the sequence 3 times, and resume in
the finally block on every exit path. -/
def playCurrentSequenceWithNotes (p : PlatformOS) (fails : ℕ → ℕ → Bool)
    (notes : List Note) (st : AudioState) : AudioState :=
  if notes.length = 0 then st
  else
    let st1 := pausePitchDetection st
    let st2 := playSequence p (fails 0) notes st1
    let st3 := playSequence p (fails 1) notes st2
    let st4 := playSequence p (fails 2) notes st3
    resumePitchDetection p st4

/- playSuccessSound of the training screen: pause detection, play the fixed
ascending 4-note figure, resume in the finally block; the outer catch would
resume once more, which is a no-op after the finally already resumed. -/
def playSuccessSound (p : PlatformOS) (fails : ℕ → Bool) (st : AudioState) :
    AudioState :=
  let st1 := pausePitchDetection st
  let st2 := playNote p (fails 0) st1
  let st3 := playNote p (fails 1) st2
  let st4 := playNote p (fails 2) st3
  let st5 := playNote p (fails 3) st4
  resumePitchDetection p st5

/-- Counterexample to claim C7 as stated: starting from a listening web
session, a genuine pause leaves a state that is not listening (both interval
handles cancelled); calling pause() again in that state is NOT a no-op — it
clears the was-running flag, and a subsequent resume() no longer restarts
listening, whereas without the second pause it would. -/
theorem claim_C7_counterexample :
    (pausePitchDetection ⟨true, false, false, false, false, true⟩).pitchDetectionInterval
        = false ∧
    (pausePitchDetection ⟨true, false, false, false, false, true⟩).mobileRecordingInterval
        = false ∧
    pausePitchDetection (pausePitchDetection ⟨true, false, false, false, false, true⟩)
      ≠ pausePitchDetection ⟨true, false, false, false, false, true⟩ ∧
    resumePitchDetection PlatformOS.web
        (pausePitchDetection (pausePitchDetection ⟨true, false, false, false, false, true⟩))
      = pausePitchDetection (pausePitchDetection ⟨true, false, false, false, false, true⟩) ∧
    (resumePitchDetection PlatformOS.web
        (pausePitchDetection ⟨true, false, false, false, false, true⟩)).pitchDetectionInterval
      = true := by
  decide

/-- Claim C7 amended: calling pause() when detection is not currently
listening cancels no timer and changes nothing except that it always
overwrites the was-running flag to false; hence it is a full no-op exactly
when that flag was already false (e.g. in the Stopped state), while calling
it in the Paused state disables a subsequent resume(). -/
theorem claim_C7_amended (st : AudioState)
    (h1 : st.pitchDetectionInterval = false)
    (h2 : st.mobileRecordingInterval = false) :
    pausePitchDetection st = { st with pitchDetectionWasRunning := false } ∧
    (st.pitchDetectionWasRunning = false → pausePitchDetection st = st) ∧
    (∀ p, resumePitchDetection p (pausePitchDetection st) = pausePitchDetection st) := by
  obtain ⟨b1, b2, b3, b4, b5, b6⟩ := st
  simp only at h1 h2
  subst h1
  subst h2
  refine ⟨?_, ?_, ?_⟩
  · simp [pausePitchDetection]
  · intro h5
    simp only at h5
    subst h5
    simp [pausePitchDetection]
  · intro p
    simp [pausePitchDetection, resumePitchDetection]

/-- Witness for the amended claim C7 in the concrete Stopped state: both
interval handles are absent, the was-running flag is clear, and pause() is a
full no-op. -/
theorem claim_C7_witness :
    (⟨false, false, false, false, false, false⟩ : AudioState).pitchDetectionInterval
        = false ∧
    (⟨false, false, false, false, false, false⟩ : AudioState).pitchDetectionWasRunning
        = false ∧
    pausePitchDetection ⟨false, false, false, false, false, false⟩
      = ⟨false, false, false, false, false, false⟩ := by
  refine ⟨rfl, rfl, ?_⟩
  exact (claim_C7_amended ⟨false, false, false, false, false, false⟩ rfl rfl).2.1 rfl

/- playNote collapses to pause-then-resume (or nothing when already paused):
the finally block runs on both the normal and the throwing path. -/
theorem playNote_eq (p : PlatformOS) (f : Bool) (st : AudioState) :
    playNote p f st =
      (if st.isPitchDetectionPaused then st
       else resumePitchDetection p (pausePitchDetection st)) := by
  unfold playNote
  cases f <;> by_cases h : st.isPitchDetectionPaused <;> simp [h]

theorem playNote_paused (p : PlatformOS) (f : Bool) (st : AudioState)
    (h : st.isPitchDetectionPaused = true) : playNote p f st = st := by
  rw [playNote_eq, if_pos h]

/- A state with no timers, not paused, and a clear was-running flag is inert
for the whole playback layer. -/
theorem pause_inert (st : AudioState)
    (h1 : st.pitchDetectionInterval = false) (h2 : st.mobileRecordingInterval = false)
    (h5 : st.pitchDetectionWasRunning = false) :
    pausePitchDetection st = st := by
  obtain ⟨b1, b2, b3, b4, b5, b6⟩ := st
  simp only at h1 h2 h5
  subst h1; subst h2; subst h5
  simp [pausePitchDetection]

theorem resume_unpaused (p : PlatformOS) (st : AudioState)
    (h4 : st.isPitchDetectionPaused = false) :
    resumePitchDetection p st = st := by
  unfold resumePitchDetection
  rw [if_pos]
  rw [h4]
  simp

theorem playNote_inert (p : PlatformOS) (f : Bool) (st : AudioState)
    (h1 : st.pitchDetectionInterval = false) (h2 : st.mobileRecordingInterval = false)
    (h4 : st.isPitchDetectionPaused = false) (h5 : st.pitchDetectionWasRunning = false) :
    playNote p f st = st := by
  rw [playNote_eq, if_neg (by rw [h4]; exact Bool.false_ne_true)]
  rw [pause_inert st h1 h2 h5, resume_unpaused p st h4]

theorem playNotesLoop_paused (p : PlatformOS) (fails : ℕ → Bool) :
    ∀ (notes : List Note) (i : ℕ) (st : AudioState),
      st.isPitchDetectionPaused = true → playNotesLoop p fails i notes st = st := by
  intro notes
  induction notes with
  | nil => intro i st _; rfl
  | cons n rest ih =>
      intro i st h
      unfold playNotesLoop
      rw [playNote_paused p _ st h]
      exact ih (i + 1) st h

theorem playNotesLoop_inert (p : PlatformOS) (fails : ℕ → Bool) :
    ∀ (notes : List Note) (i : ℕ) (st : AudioState),
      st.pitchDetectionInterval = false → st.mobileRecordingInterval = false →
      st.isPitchDetectionPaused = false → st.pitchDetectionWasRunning = false →
      playNotesLoop p fails i notes st = st := by
  intro notes
  induction notes with
  | nil => intro i st _ _ _ _; rfl
  | cons n rest ih =>
      intro i st h1 h2 h4 h5
      unfold playNotesLoop
      rw [playNote_inert p _ st h1 h2 h4 h5]
      exact ih (i + 1) st h1 h2 h4 h5

theorem playSequence_paused (p : PlatformOS) (fails : ℕ → Bool)
    (notes : List Note) (st : AudioState)
    (h : st.isPitchDetectionPaused = true) :
    playSequence p fails notes st = st := by
  unfold playSequence
  rw [h]
  simp only [if_true]
  rw [playNotesLoop_paused p fails notes 0 st h]

theorem playSequence_inert (p : PlatformOS) (fails : ℕ → Bool)
    (notes : List Note) (st : AudioState)
    (h1 : st.pitchDetectionInterval = false) (h2 : st.mobileRecordingInterval = false)
    (h4 : st.isPitchDetectionPaused = false) (h5 : st.pitchDetectionWasRunning = false) :
    playSequence p fails notes st = st := by
  unfold playSequence
  rw [h4]
  simp only [Bool.false_eq_true, if_false]
  rw [pause_inert st h1 h2 h5]
  rw [playNotesLoop_inert p fails notes 0 st h1 h2 h4 h5]
  rw [resume_unpaused p st h4]

theorem pause_state_spec (st : AudioState)
    (h : (st.pitchDetectionInterval || st.mobileRecordingInterval) = true) :
    pausePitchDetection st
      = { st with
            pitchDetectionInterval := false,
            mobileRecordingInterval := false,
            isPitchDetectionPaused := true,
            pitchDetectionWasRunning := true } := by
  unfold pausePitchDetection
  rw [h]
  simp

theorem pause_not_listening (st : AudioState)
    (h1 : st.pitchDetectionInterval = false) (h2 : st.mobileRecordingInterval = false) :
    pausePitchDetection st = { st with pitchDetectionWasRunning := false } := by
  unfold pausePitchDetection
  rw [h1, h2]
  simp

theorem playNote_after_pause (p : PlatformOS) (f : Bool) (st : AudioState)
    (hnp : st.isPitchDetectionPaused = false) :
    playNote p f (pausePitchDetection st) = pausePitchDetection st := by
  by_cases hl : (st.pitchDetectionInterval || st.mobileRecordingInterval) = true
  · apply playNote_paused
    rw [pause_state_spec st hl]
  · rcases Bool.or_eq_false_iff.mp (Bool.not_eq_true _ |>.mp hl) with ⟨h1, h2⟩
    rw [pause_not_listening st h1 h2]
    exact playNote_inert p f _ (by simp [h1]) (by simp [h2]) (by simp [hnp]) (by simp)

theorem playSequence_after_pause (p : PlatformOS) (fails : ℕ → Bool)
    (notes : List Note) (st : AudioState)
    (hnp : st.isPitchDetectionPaused = false) :
    playSequence p fails notes (pausePitchDetection st) = pausePitchDetection st := by
  by_cases hl : (st.pitchDetectionInterval || st.mobileRecordingInterval) = true
  · apply playSequence_paused
    rw [pause_state_spec st hl]
  · rcases Bool.or_eq_false_iff.mp (Bool.not_eq_true _ |>.mp hl) with ⟨h1, h2⟩
    rw [pause_not_listening st h1 h2]
    exact playSequence_inert p fails notes _
      (by simp [h1]) (by simp [h2]) (by simp [hnp]) (by simp)

theorem resume_after_pause (p : PlatformOS) (st : AudioState)
    (hnp : st.isPitchDetectionPaused = false) :
    (resumePitchDetection p (pausePitchDetection st)).isPitchDetectionPaused = false ∧
    (p = PlatformOS.web → st.hasWebResources = true → st.pitchDetectionInterval = true →
      (resumePitchDetection p (pausePitchDetection st)).pitchDetectionInterval = true) ∧
    (p = PlatformOS.ios → st.mobileRecordingInterval = true →
      (resumePitchDetection p (pausePitchDetection st)).mobileRecordingInterval = true) := by
  obtain ⟨b1, b2, b3, b4, b5, b6⟩ := st
  simp only at hnp
  subst hnp
  cases p <;> cases b1 <;> cases b2 <;> cases b5 <;> cases b6 <;>
    simp [pausePitchDetection, resumePitchDetection,
      startNativePitchDetectionState, startEnhancedSimulatedDetectionState]

/-- Claim C8: entering a demonstration (playCurrentSequenceWithNotes for a
sequence, playSuccessSound for the success figure) from an unpaused session
pauses detection first and resumes it on every exit path, for every pattern
of playback failures: afterwards detection is never left paused, and on a
platform whose resources are still held the sampling interval is running
again whenever it was running before. -/
theorem claim_C8 (p : PlatformOS) (seqFails : ℕ → ℕ → Bool) (succFails : ℕ → Bool)
    (notes : List Note) (st : AudioState)
    (hnp : st.isPitchDetectionPaused = false) :
    (playCurrentSequenceWithNotes p seqFails notes st).isPitchDetectionPaused = false ∧
    (playSuccessSound p succFails st).isPitchDetectionPaused = false ∧
    (p = PlatformOS.web → st.hasWebResources = true → st.pitchDetectionInterval = true →
      (playCurrentSequenceWithNotes p seqFails notes st).pitchDetectionInterval = true ∧
      (playSuccessSound p succFails st).pitchDetectionInterval = true) ∧
    (p = PlatformOS.ios → st.mobileRecordingInterval = true →
      (playCurrentSequenceWithNotes p seqFails notes st).mobileRecordingInterval = true ∧
      (playSuccessSound p succFails st).mobileRecordingInterval = true) := by
  have hsucc : playSuccessSound p succFails st
      = resumePitchDetection p (pausePitchDetection st) := by
    unfold playSuccessSound
    dsimp only
    rw [playNote_after_pause p (succFails 0) st hnp,
      playNote_after_pause p (succFails 1) st hnp,
      playNote_after_pause p (succFails 2) st hnp,
      playNote_after_pause p (succFails 3) st hnp]
  have hseq : playCurrentSequenceWithNotes p seqFails notes st
      = (if notes.length = 0 then st
         else resumePitchDetection p (pausePitchDetection st)) := by
    unfold playCurrentSequenceWithNotes
    by_cases hn : notes.length = 0
    · rw [if_pos hn, if_pos hn]
    · rw [if_neg hn, if_neg hn]
      dsimp only
      rw [playSequence_after_pause p (seqFails 0) notes st hnp,
        playSequence_after_pause p (seqFails 1) notes st hnp,
        playSequence_after_pause p (seqFails 2) notes st hnp]
  obtain ⟨hr4, hrweb, hrios⟩ := resume_after_pause p st hnp
  refine ⟨?_, ?_, ?_, ?_⟩
  · rw [hseq]
    by_cases hn : notes.length = 0
    · rw [if_pos hn]; exact hnp
    · rw [if_neg hn]; exact hr4
  · rw [hsucc]; exact hr4
  · intro hp hres hint
    refine ⟨?_, ?_⟩
    · rw [hseq]
      by_cases hn : notes.length = 0
      · rw [if_pos hn]; exact hint
      · rw [if_neg hn]; exact hrweb hp hres hint
    · rw [hsucc]; exact hrweb hp hres hint
  · intro hp hint
    refine ⟨?_, ?_⟩
    · rw [hseq]
      by_cases hn : notes.length = 0
      · rw [if_pos hn]; exact hint
      · rw [if_neg hn]; exact hrios hp hint
    · rw [hsucc]; exact hrios hp hint

/-- Witness for claim C8 on a listening web session with every playback call
failing: after demonstrating [C4], detection is not paused and the sampling
interval is running again. -/
theorem claim_C8_witness :
    (⟨true, false, false, false, false, true⟩ : AudioState).isPitchDetectionPaused
        = false ∧
    (playCurrentSequenceWithNotes PlatformOS.web (fun _ _ => true) [noteC4]
        ⟨true, false, false, false, false, true⟩).isPitchDetectionPaused = false ∧
    (playCurrentSequenceWithNotes PlatformOS.web (fun _ _ => true) [noteC4]
        ⟨true, false, false, false, false, true⟩).pitchDetectionInterval = true := by
  have h := claim_C8 PlatformOS.web (fun _ _ => true) (fun _ => true) [noteC4]
    ⟨true, false, false, false, false, true⟩ rfl
  exact ⟨rfl, h.1, (h.2.2.1 rfl rfl rfl).1⟩
